import Mathlib

/-
Verification of the prisma-ezfilter library: a shallow embedding of
src/builders/queryBuilder.ts, src/utils/validation.ts,
src/utils/queryExtractor.ts, src/transformers/queryTransformer.ts and
src/BuildQueryFilter.ts, together with theorems settling the stated
properties of the specification.

Modelling conventions:
- JavaScript runtime values are modelled by the inductive type JVal.
  JSON numbers that occur in the claims are integers, so numbers are
  modelled by Int.  The JavaScript values null and undefined are both
  modelled by JVal.null: every piece of the library treats them alike
  (value === null || value === undefined, ?? , truthiness).
- JavaScript objects are modelled as association lists that preserve
  insertion order, matching the iteration order of Object.entries for
  string keys.  Property assignment keeps the position of an existing
  key (JVal model: setProp).
- External JavaScript builtins that the library calls (JSON.parse,
  Number, isNaN on non-strings, new Date inside the transformer) are
  taken as parameters (a decode function, the JsPrims record), so the
  theorems hold for every model of those builtins.
-/

/-- Dynamic JavaScript values as used by the library: null or undefined,
strings, (integer) numbers, booleans, Date objects (carried as a
millisecond timestamp), arrays and plain objects. -/
inductive JVal where
  | null
  | str (s : String)
  | num (n : Int)
  | bool (b : Bool)
  | date (ts : Int)
  | arr (elems : List JVal)
  | obj (fields : List (String × JVal))

/-- JavaScript truthiness of a JVal.  Objects, arrays and Date objects
are always truthy; the empty string, the number 0, false and
null / undefined are falsy. -/
def truthy : JVal → Bool
  | .null => false
  | .str s => s ≠ ""
  | .num n => n ≠ 0
  | .bool b => b
  | .date _ => true
  | .arr _ => true
  | .obj _ => true

/-- The test (value === null || value === undefined) used throughout the
library; both JavaScript values are modelled by JVal.null. -/
def isNullish : JVal → Bool
  | .null => true
  | _ => false

/-- typeof v === "object" (true for objects, arrays, Date objects and
null). -/
def isObjectType : JVal → Bool
  | .obj _ => true
  | .arr _ => true
  | .date _ => true
  | .null => true
  | _ => false

/-- Object property lookup on an association list (first occurrence
wins, as keys of a JavaScript object are unique). -/
def getField : List (String × JVal) → String → Option JVal
  | [], _ => none
  | (k', v) :: rest, k => if k' = k then some v else getField rest k

/-- Property read on a JVal; only plain objects carry properties that
the library reads by name. -/
def getProp : JVal → String → Option JVal
  | .obj fs, k => getField fs k
  | _, _ => none

/-- JavaScript property assignment on an object: an existing key keeps
its position and gets the new value, a fresh key is appended. -/
def setProp : List (String × JVal) → String → JVal → List (String × JVal)
  | [], k, v => [(k, v)]
  | (k', v') :: rest, k, v =>
      if k' = k then (k', v) :: rest else (k', v') :: setProp rest k v

/-- Object.entries.  For an object this is its field list in insertion
order; for an array the index and element pairs; for a string the index
and character pairs; for the remaining primitives the empty list.
(Object.entries of null throws in JavaScript; that case is never
reached by the library on the inputs considered here.) -/
def jsEntries : JVal → List (String × JVal)
  | .obj fs => fs
  | .arr xs => xs.enum.map (fun p => (toString p.1, p.2))
  | .str s => s.data.enum.map (fun p => (toString p.1, .str (String.singleton p.2)))
  | _ => []

/-- Object.keys. -/
def jsKeys (v : JVal) : List String := (jsEntries v).map Prod.fst

/-- The elements an array is iterated over by a for..of loop.  The
library only ever iterates arrays here (a non-array would throw in
JavaScript and is never reached by the claims). -/
def jsElems : JVal → List JVal
  | .arr l => l
  | _ => []

/-- The JavaScript String.prototype.split with separator "." on a char
list: "a.b.c" gives a, b, c; the empty string gives one empty part. -/
def splitDot : List Char → List (List Char)
  | [] => [[]]
  | c :: cs =>
      if c = '.' then [] :: splitDot cs
      else
        match splitDot cs with
        | [] => [[c]]
        | t :: ts => (c :: t) :: ts

/-- Part i of key.split("."); out-of-range access (undefined in
JavaScript) is modelled by the empty string and is never reached under
the guards of the library. -/
def splitPart (s : String) (i : Nat) : String :=
  String.mk (((splitDot s.data).get? i).getD [])

/-- key.includes(".") -/
def hasDot (s : String) : Bool := s.data.contains '.'

/-- JavaScript numbers as they reach page and rows: either a proper
(integer) number or the NaN produced by parseInt on non-numeric
input. -/
inductive JsNum where
  | nan
  | i (n : Int)
  deriving DecidableEq

/-- Truthiness of a JavaScript number: 0 and NaN are falsy. -/
def JsNum.truthy : JsNum → Bool
  | .nan => false
  | .i n => n ≠ 0

/-- Truthiness of an optional number-valued field (undefined is
falsy). -/
def jsTruthyNum : Option JsNum → Bool
  | some n => n.truthy
  | none => false

/-- The integer carried by an optional number; only read under a
truthiness guard, so the defaults are never reached. -/
def numVal : Option JsNum → Int
  | some (.i n) => n
  | _ => 0

/-- n < k for a JavaScript number (any comparison with NaN is false). -/
def jsLtInt : JsNum → Int → Bool
  | .i n, k => n < k
  | .nan, _ => false

/-- n > k for a JavaScript number (any comparison with NaN is false). -/
def jsGtInt : JsNum → Int → Bool
  | .i n, k => n > k
  | .nan, _ => false

/-- The FilteringQuery record of src/types (the normalized filter
request).  filters, searchFilters and rangedFilters hold whatever the
JSON decode produced, hence JVal. -/
structure FilteringQuery where
  filters : Option JVal := none
  searchFilters : Option JVal := none
  rangedFilters : Option JVal := none
  orderKey : Option String := none
  orderRule : Option String := none
  page : Option JsNum := none
  rows : Option JsNum := none

/-- PrismaQueryOptions of src/types.  The field named where in the
source is called whereQ here because where is reserved in Lean. -/
structure PrismaQueryOptions where
  whereQ : Option JVal := none
  orderBy : Option JVal := none
  take : Option Int := none
  skip : Option Int := none

/-- Loop body of buildWhereQuery in src/builders/queryBuilder.ts: the
condition produced for one filters entry (after the null skip). -/
def whereConditionFor (key : String) (value : JVal) : JVal :=
  if hasDot key then
    let relation := splitPart key 0
    let column := splitPart key 1
    match value with
    | .arr vs =>
        .obj [("OR", .arr (vs.map (fun val => .obj [(relation, .obj [(column, val)])])))]
    | _ => .obj [(relation, .obj [(column, value)])]
  else
    match value with
    | .arr vs =>
        .obj [("OR", .arr (vs.map (fun val => .obj [(key, val)])))]
    | _ => .obj [(key, value)]

/-- buildWhereQuery of src/builders/queryBuilder.ts. -/
def buildWhereQuery (filters : JVal) : List JVal :=
  (jsEntries filters).foldl
    (fun whereConditions kv =>
      if isNullish kv.2 then whereConditions
      else whereConditions ++ [whereConditionFor kv.1 kv.2])
    []

/-- The contains predicate built for one searchFilters entry in
buildSearchQuery (after the null skip). -/
def searchPredFor (key : String) (value : JVal) : JVal :=
  if hasDot key then
    let relation := splitPart key 0
    let column := splitPart key 1
    .obj [(relation, .obj [(column, .obj [("contains", value)])])]
  else
    .obj [(key, .obj [("contains", value)])]

/-- buildSearchQuery of src/builders/queryBuilder.ts.  isMultiKey counts
all entries (Object.values length), including null-valued ones. -/
def buildSearchQuery (searchFilters : JVal) : List JVal :=
  let entries := jsEntries searchFilters
  let isMultiKey := entries.length > 1
  let acc :=
    entries.foldl
      (fun (acc : List JVal × List JVal) kv =>
        if isNullish kv.2 then acc
        else
          let searchQuery := searchPredFor kv.1 kv.2
          if isMultiKey then (acc.1, acc.2 ++ [searchQuery])
          else (acc.1 ++ [searchQuery], acc.2))
      ([], [])
  if isMultiKey && !acc.2.isEmpty then
    acc.1 ++ [.obj [("OR", .arr acc.2)]]
  else acc.1

/-- range.key; the source assumes a string key (a non-string would
throw on .includes and is never reached by the claims). -/
def rangeKey (r : JVal) : String :=
  match getProp r "key" with
  | some (.str s) => s
  | _ => ""

/-- range.start (an absent property is undefined, modelled by null). -/
def rangeStart (r : JVal) : JVal := (getProp r "start").getD .null

/-- range.end -/
def rangeEnd (r : JVal) : JVal := (getProp r "end").getD .null

/-- buildRangedFilter of src/builders/queryBuilder.ts. -/
def buildRangedFilter (rangedFilters : List JVal) : List JVal :=
  rangedFilters.foldl
    (fun whereConditions range =>
      let key := rangeKey range
      let bounds : JVal := .obj [("gte", rangeStart range), ("lte", rangeEnd range)]
      if hasDot key then
        whereConditions ++ [.obj [(splitPart key 0, .obj [(splitPart key 1, bounds)])]]
      else
        whereConditions ++ [.obj [(key, bounds)]])
    []

/-- buildPagination of src/builders/queryBuilder.ts.  The source tests
page and rows by truthiness, so a zero or NaN value takes the same
branch as an absent one.  Returns the pair (take, skip). -/
def buildPagination (filter : FilteringQuery) : Int × Int :=
  if jsTruthyNum filter.page then
    let page := numVal filter.page
    if jsTruthyNum filter.rows then
      let rows := numVal filter.rows
      (rows, (page - 1) * rows)
    else
      (10, 10 * (page - 1))
  else
    (10, 0)

/-- buildFilterQuery of src/builders/queryBuilder.ts. -/
def buildFilterQuery (filter : FilteringQuery) : PrismaQueryOptions :=
  let and0 : List JVal := []
  let and1 :=
    match filter.filters with
    | some f => if truthy f then and0 ++ buildWhereQuery f else and0
    | none => and0
  let and2 :=
    match filter.searchFilters with
    | some f => if truthy f then and1 ++ buildSearchQuery f else and1
    | none => and1
  let and3 :=
    match filter.rangedFilters with
    | some f => if truthy f then and2 ++ buildRangedFilter (jsElems f) else and2
    | none => and2
  let orderBy : JVal :=
    match filter.orderKey with
    | some k => if k ≠ "" then .obj [(k, .str (filter.orderRule.getD "asc"))] else .obj []
    | none => .obj []
  let ts := buildPagination filter
  { whereQ := some (.obj [("AND", .arr and3)]),
    orderBy := some orderBy,
    take := some ts.1,
    skip := some ts.2 }

/-- QuerySpecification of src/types. -/
structure QuerySpecification where
  allowedFields : Option (List String) := none
  allowedOperators : Option (List String) := none
  allowedRelations : Option (List String) := none
  maxPageSize : Option Int := none
  defaultPageSize : Option Int := none
  requiredFields : Option (List String) := none
  forbiddenFields : Option (List String) := none

/-- ValidationResult of src/types. -/
structure ValidationResult where
  isValid : Bool
  errors : List String
  warnings : List String
  deriving DecidableEq

/-- The single quote character used by the validation message templates
(kept out of the string literals). -/
def quoteChar : String := String.singleton (Char.ofNat 39)

/-- Message template of validateFilters for a forbidden field. -/
def fieldForbiddenMsg (f : String) : String :=
  "Field " ++ quoteChar ++ f ++ quoteChar ++ " is forbidden"

/-- Message template of validateFilters for a field outside
allowedFields. -/
def fieldNotAllowedMsg (f : String) : String :=
  "Field " ++ quoteChar ++ f ++ quoteChar ++ " is not in allowed fields list"

/-- Message template of validateFilters for a relation outside
allowedRelations. -/
def relationNotAllowedMsg (r : String) : String :=
  "Relation " ++ quoteChar ++ r ++ quoteChar ++ " is not allowed"

/-- Message template of validateSearchFilters for a field outside
allowedFields. -/
def searchFieldMsg (f : String) : String :=
  "Search field " ++ quoteChar ++ f ++ quoteChar ++ " is not in allowed fields list"

/-- Message template of validateSearchFilters for a relation outside
allowedRelations. -/
def searchRelationMsg (r : String) : String :=
  "Search relation " ++ quoteChar ++ r ++ quoteChar ++ " is not allowed"

/-- Message template of validateRangedFilters for a field outside
allowedFields. -/
def rangeFieldMsg (f : String) : String :=
  "Range field " ++ quoteChar ++ f ++ quoteChar ++ " is not in allowed fields list"

/-- Message template of validateRangedFilters for a relation outside
allowedRelations. -/
def rangeRelationMsg (r : String) : String :=
  "Range relation " ++ quoteChar ++ r ++ quoteChar ++ " is not allowed"

/-- Message template of validateRangedFilters for a start date after the
end date. -/
def rangeDateMsg (s e : String) : String :=
  "Range start date " ++ quoteChar ++ s ++ quoteChar ++ " is after end date " ++ quoteChar ++ e ++ quoteChar

/-- Message template of validateOrderKey for a field outside
allowedFields. -/
def orderFieldMsg (f : String) : String :=
  "Order field " ++ quoteChar ++ f ++ quoteChar ++ " is not in allowed fields list"

/-- Message template of validateOrderKey for a relation outside
allowedRelations. -/
def orderRelationMsg (r : String) : String :=
  "Order relation " ++ quoteChar ++ r ++ quoteChar ++ " is not allowed"

/-- Pagination message: page below 1. -/
def pageMsg : String := "Page number must be greater than 0"

/-- Pagination message: rows below 1. -/
def rowsMsg : String := "Rows per page must be greater than 0"

/-- Pagination message: rows above maxPageSize. -/
def rowsMaxMsg (m : Int) : String :=
  "Rows per page cannot exceed " ++ toString m

/-- Template-literal interpolation of a JVal (only strings are ever
interpolated by the library under the guards that reach a message). -/
def interpolate : JVal → String
  | .str s => s
  | .num n => toString n
  | .bool b => cond b "true" "false"
  | .null => "null"
  | _ => ""

/-- Value of a two-digit group. -/
def digitsToNat (l : List Char) : Nat :=
  l.foldl (fun a c => a * 10 + (c.toNat - 48)) 0

/-- The digits of the optional fractional-second group: after the dot
there must be one or more digits followed by the final Z. -/
def isoFrac : List Char → Option (List Char)
  | ['Z'] => some []
  | c :: cs => if c.isDigit then (isoFrac cs).map (fun ds => c :: ds) else none
  | [] => none

/-- The numeric fields of a date string.  isSome of this parse is
exactly the regex of isValidDate in src/utils/validation.ts. -/
structure ISOFields where
  year : Nat
  month : Nat
  day : Nat
  hour : Nat
  minute : Nat
  second : Nat
  frac : List Char

/-- Syntactic parse of the strict ISO-8601 UTC pattern used by
isValidDate. -/
def parseFieldsISO : List Char → Option ISOFields
  | y1 :: y2 :: y3 :: y4 :: '-' :: m1 :: m2 :: '-' :: d1 :: d2 :: 'T' ::
      h1 :: h2 :: ':' :: n1 :: n2 :: ':' :: s1 :: s2 :: rest =>
    if [y1, y2, y3, y4, m1, m2, d1, d2, h1, h2, n1, n2, s1, s2].all Char.isDigit then
      let base : ISOFields :=
        { year := digitsToNat [y1, y2, y3, y4], month := digitsToNat [m1, m2],
          day := digitsToNat [d1, d2], hour := digitsToNat [h1, h2],
          minute := digitsToNat [n1, n2], second := digitsToNat [s1, s2], frac := [] }
      match rest with
      | ['Z'] => some base
      | '.' :: rest2 =>
          match isoFrac rest2 with
          | some ds => if ds.isEmpty then none else some { base with frac := ds }
          | none => none
      | _ => none
    else none
  | _ => none

/-- isValidDate of src/utils/validation.ts: a string matching the
pattern YYYY-MM-DDTHH:mm:ss(.d+)?Z. -/
def isValidDate : JVal → Bool
  | .str s => (parseFieldsISO s.data).isSome
  | _ => false

/-- Proleptic Gregorian leap years (as used by the JavaScript Date). -/
def isLeap (y : Nat) : Bool :=
  (y % 4 = 0 && y % 100 ≠ 0) || y % 400 = 0

/-- Days in a month of the proleptic Gregorian calendar. -/
def daysInMonth (y m : Nat) : Nat :=
  if m = 2 then (if isLeap y then 29 else 28)
  else if m = 4 || m = 6 || m = 9 || m = 11 then 30
  else 31

/-- Days from the Unix epoch to the civil date y-m-d (the standard
days-from-civil computation over the proleptic Gregorian calendar). -/
def daysFromCivil (y m d : Int) : Int :=
  let y' := if m ≤ 2 then y - 1 else y
  let era := Int.fdiv y' 400
  let yoe := y' - era * 400
  let m' := if m > 2 then m - 3 else m + 9
  let doy := (153 * m' + 2) / 5 + d - 1
  let doe := yoe * 365 + yoe / 4 - yoe / 100 + doy
  era * 146097 + doe - 719468

/-- Milliseconds of the fractional group: the first three digits, right
padded with zeros (further digits are truncated, as V8 does). -/
def fracToMillis (ds : List Char) : Nat :=
  digitsToNat ((ds ++ ['0', '0', '0']).take 3)

/-- The timestamp new Date(s).getTime() of a string already matching the
isValidDate pattern; none models an Invalid Date (out-of-range
components, which ISO parsing rejects).  Hour 24 is accepted when the
remaining components are zero, as in the ECMAScript date format. -/
def parseISOTimestamp (s : String) : Option Int :=
  (parseFieldsISO s.data).bind fun f =>
    let ms := fracToMillis f.frac
    if 1 ≤ f.month ∧ f.month ≤ 12 ∧ 1 ≤ f.day ∧ f.day ≤ daysInMonth f.year f.month ∧
        ((f.hour ≤ 23 ∧ f.minute ≤ 59 ∧ f.second ≤ 59) ∨
          (f.hour = 24 ∧ f.minute = 0 ∧ f.second = 0 ∧ ms = 0)) then
      some (((((daysFromCivil f.year f.month f.day) * 24 + f.hour) * 60 + f.minute) * 60 +
        f.second) * 1000 + ms)
    else none

/-- new Date(v).getTime(); only called by the library under an
isValidDate guard, so v is a pattern-matching string there. -/
def jsDateValue : JVal → Option Int
  | .str s => parseISOTimestamp s
  | _ => none

/-- The comparison startDate > endDate on two Date objects: timestamps
are compared, and any comparison involving an Invalid Date (NaN) is
false. -/
def jsDateGt (a b : JVal) : Bool :=
  match jsDateValue a, jsDateValue b with
  | some x, some y => x > y
  | _, _ => false

/-- validateFilters of src/utils/validation.ts; returns the pair of
error and warning messages it appends. -/
def validateFilters (filters : JVal) (specification : QuerySpecification) :
    List String × List String :=
  (jsEntries filters).foldl
    (fun acc kv =>
      if isNullish kv.2 then acc
      else
        let field := kv.1
        let acc1 :=
          match specification.allowedFields with
          | some af =>
              if !af.contains field then
                if (specification.forbiddenFields.getD []).contains field then
                  (acc.1 ++ [fieldForbiddenMsg field], acc.2)
                else
                  (acc.1, acc.2 ++ [fieldNotAllowedMsg field])
              else acc
          | none => acc
        if hasDot field then
          let relation := splitPart field 0
          match specification.allowedRelations with
          | some ar =>
              if relation ≠ "" && !ar.contains relation then
                (acc1.1 ++ [relationNotAllowedMsg relation], acc1.2)
              else acc1
          | none => acc1
        else acc1)
    ([], [])

/-- validateSearchFilters of src/utils/validation.ts.  Note that unlike
validateFilters it never consults forbiddenFields. -/
def validateSearchFilters (searchFilters : JVal) (specification : QuerySpecification) :
    List String × List String :=
  (jsEntries searchFilters).foldl
    (fun acc kv =>
      if isNullish kv.2 then acc
      else
        let field := kv.1
        let acc1 :=
          match specification.allowedFields with
          | some af =>
              if !af.contains field then (acc.1, acc.2 ++ [searchFieldMsg field])
              else acc
          | none => acc
        if hasDot field then
          let relation := splitPart field 0
          match specification.allowedRelations with
          | some ar =>
              if relation ≠ "" && !ar.contains relation then
                (acc1.1 ++ [searchRelationMsg relation], acc1.2)
              else acc1
          | none => acc1
        else acc1)
    ([], [])

/-- validateRangedFilters of src/utils/validation.ts. -/
def validateRangedFilters (rangedFilters : List JVal) (specification : QuerySpecification) :
    List String × List String :=
  rangedFilters.foldl
    (fun acc range =>
      let key := rangeKey range
      let acc1 :=
        match specification.allowedFields with
        | some af =>
            if !af.contains key then (acc.1, acc.2 ++ [rangeFieldMsg key])
            else acc
        | none => acc
      let acc2 :=
        if hasDot key then
          let relation := splitPart key 0
          match specification.allowedRelations with
          | some ar =>
              if relation ≠ "" && !ar.contains relation then
                (acc1.1 ++ [rangeRelationMsg relation], acc1.2)
              else acc1
          | none => acc1
        else acc1
      if isValidDate (rangeStart range) && isValidDate (rangeEnd range) then
        if jsDateGt (rangeStart range) (rangeEnd range) then
          (acc2.1 ++ [rangeDateMsg (interpolate (rangeStart range)) (interpolate (rangeEnd range))],
            acc2.2)
        else acc2
      else acc2)
    ([], [])

/-- validateOrderKey of src/utils/validation.ts. -/
def validateOrderKey (orderKey : String) (specification : QuerySpecification) :
    List String × List String :=
  let acc1 :=
    match specification.allowedFields with
    | some af =>
        if !af.contains orderKey then (([] : List String), [orderFieldMsg orderKey])
        else ([], [])
    | none => ([], [])
  if hasDot orderKey then
    let relation := splitPart orderKey 0
    match specification.allowedRelations with
    | some ar =>
        if relation ≠ "" && !ar.contains relation then
          (acc1.1 ++ [orderRelationMsg relation], acc1.2)
        else acc1
    | none => acc1
  else acc1

/-- validatePagination of src/utils/validation.ts; returns the errors
it appends.  The page test uses strict undefined checks (not
truthiness), and any comparison with NaN is false. -/
def validatePagination (query : FilteringQuery) (specification : QuerySpecification) :
    List String :=
  let e1 :=
    match query.page with
    | some p => if jsLtInt p 1 then [pageMsg] else []
    | none => []
  let e2 :=
    match query.rows with
    | some r =>
        if jsLtInt r 1 then [rowsMsg]
        else
          match specification.maxPageSize with
          | some m => if m ≠ 0 && jsGtInt r m then [rowsMaxMsg m] else []
          | none => []
    | none => []
  e1 ++ e2

/-- validateQuery of src/utils/validation.ts. -/
def validateQuery (query : FilteringQuery) (specification : Option QuerySpecification) :
    ValidationResult :=
  match specification with
  | none => { isValid := true, errors := [], warnings := [] }
  | some spec =>
      let r1 :=
        match query.filters with
        | some f => if truthy f then validateFilters f spec else ([], [])
        | none => ([], [])
      let r2 :=
        match query.searchFilters with
        | some f => if truthy f then validateSearchFilters f spec else ([], [])
        | none => ([], [])
      let r3 :=
        match query.rangedFilters with
        | some f => if truthy f then validateRangedFilters (jsElems f) spec else ([], [])
        | none => ([], [])
      let r4 :=
        match query.orderKey with
        | some k => if k ≠ "" then validateOrderKey k spec else ([], [])
        | none => ([], [])
      let e5 := validatePagination query spec
      let errors := r1.1 ++ r2.1 ++ r3.1 ++ r4.1 ++ e5
      let warnings := r1.2 ++ r2.2 ++ r3.2 ++ r4.2
      { isValid := errors.isEmpty, errors := errors, warnings := warnings }

/-- A raw query-string parameter: a single string or an array of
strings (repeated keys); an absent parameter is modelled by none at the
use sites. -/
inductive ParamVal where
  | s (v : String)
  | a (vs : List String)

/-- QueryParams of src/types: the raw string-keyed parameter mapping. -/
structure QueryParams where
  filters : Option ParamVal := none
  searchFilters : Option ParamVal := none
  rangedFilters : Option ParamVal := none
  orderKey : Option ParamVal := none
  orderRule : Option ParamVal := none
  page : Option ParamVal := none
  rows : Option ParamVal := none

/-- Truthiness of a raw parameter: an absent parameter and the empty
string are falsy; arrays (even empty ones) are truthy. -/
def paramTruthy : Option ParamVal → Bool
  | some (.s v) => v ≠ ""
  | some (.a _) => true
  | none => false

/-- Array.isArray(x) ? x[0] : x on a raw parameter; none models the
undefined produced by indexing an empty array. -/
def firstString : ParamVal → Option String
  | .s v => some v
  | .a vs => vs.head?

/-- parseInt(s, 10): leading whitespace, an optional sign, then the
longest digit prefix; no digits gives NaN.  (Precision loss of huge
doubles is outside the scope of the claims.) -/
def jsParseInt (s : String) : JsNum :=
  let l := s.data.dropWhile (fun c => c = ' ' ∨ c = '\t' ∨ c = '\n' ∨ c = '\r')
  let signed : Bool × List Char :=
    match l with
    | '-' :: rest => (true, rest)
    | '+' :: rest => (false, rest)
    | rest => (false, rest)
  let digits := signed.2.takeWhile Char.isDigit
  if digits.isEmpty then .nan
  else
    let n : Int := Int.ofNat (digitsToNat digits)
    .i (if signed.1 then -n else n)

/-- One JSON-decoded parameter block of extractQueryFromParams: under a
truthy parameter, the first string is passed to the decode function
(JSON.parse); a decode failure is the caught exception, leaving the
field unset; a missing first element is assigned as undefined. -/
def decodeParam (decode : String → Option JVal) (p : Option ParamVal) : Option JVal :=
  if paramTruthy p then
    match p with
    | some pv =>
        match firstString pv with
        | some s => decode s
        | none => none
    | none => none
  else none

/-- One raw string parameter block of extractQueryFromParams (orderKey
and orderRule). -/
def extractStringParam (p : Option ParamVal) : Option String :=
  if paramTruthy p then
    match p with
    | some pv => firstString pv
    | none => none
  else none

/-- One numeric parameter block of extractQueryFromParams: parseInt of
the first string; parseInt applied to an undefined first element is
NaN. -/
def extractNumParam (p : Option ParamVal) : Option JsNum :=
  if paramTruthy p then
    match p with
    | some pv =>
        some (match firstString pv with
          | some s => jsParseInt s
          | none => JsNum.nan)
    | none => none
  else none

/-- extractQueryFromParams of src/utils/queryExtractor.ts,
parameterized by the JSON.parse builtin (none models a thrown
SyntaxError, which the source catches). -/
def extractQueryFromParams (decode : String → Option JVal) (queryParams : QueryParams) :
    FilteringQuery :=
  { filters := decodeParam decode queryParams.filters,
    searchFilters := decodeParam decode queryParams.searchFilters,
    rangedFilters := decodeParam decode queryParams.rangedFilters,
    orderKey := extractStringParam queryParams.orderKey,
    orderRule := extractStringParam queryParams.orderRule,
    page := extractNumParam queryParams.page,
    rows := extractNumParam queryParams.rows }

/-- FieldTypeHandler of src/types.  A custom handler returning the null
sentinel (JVal.null) drops the field. -/
structure FieldTypeHandler where
  type : String
  searchOperator : Option String := none
  customHandler : Option (JVal → JVal) := none

/-- RelationHandler of src/types. -/
structure RelationHandler where
  type : String := "one-to-many"
  relationQuery : String := "some"
  nestedField : Option String := none
  customHandler : Option (JVal → String → JVal) := none

/-- TransformConfig of src/types. -/
structure TransformConfig where
  fieldMappings : List (String × String)
  fieldNameMappings : List (String × String) := []
  fieldTypeHandlers : List (String × FieldTypeHandler) := []
  relationHandlers : List (String × RelationHandler) := []

/-- The JavaScript numeric and date builtins used by processFieldValue,
abstracted so the theorems hold for every model of them:
stringToNumber models Number(s) with none for NaN; nonStringIsNaN
models isNaN applied to a non-string value; newDate models new
Date(v).getTime() with none for an Invalid Date. -/
structure JsPrims where
  stringToNumber : String → Option JVal
  nonStringIsNaN : JVal → Bool
  newDate : JVal → Option Int

/-- Lookup in a string-to-string mapping of the TransformConfig. -/
def lookupStr : List (String × String) → String → Option String
  | [], _ => none
  | (k', v) :: rest, k => if k' = k then some v else lookupStr rest k

/-- fieldNameMappings[key] || key (a missing or empty mapping falls
back to the key). -/
def actualFieldFor (mappings : List (String × String)) (key : String) : String :=
  match lookupStr mappings key with
  | some a => if a ≠ "" then a else key
  | none => key

/-- Lookup of a field type handler. -/
def lookupFTH : List (String × FieldTypeHandler) → String → Option FieldTypeHandler
  | [], _ => none
  | (k', v) :: rest, k => if k' = k then some v else lookupFTH rest k

/-- Lookup of a relation handler. -/
def lookupRH : List (String × RelationHandler) → String → Option RelationHandler
  | [], _ => none
  | (k', v) :: rest, k => if k' = k then some v else lookupRH rest k

/-- A bound used to justify the recursion of extractRawValue: a value
found in a field list is structurally smaller than the list. -/
theorem getField_sizeOf_lt :
    ∀ (fs : List (String × JVal)) (k : String) (v : JVal),
      getField fs k = some v → sizeOf v < 1 + sizeOf fs := by
  intro fs
  induction fs with
  | nil => intro k v h; simp [getField] at h
  | cons hd tl ih =>
      intro k v h
      simp only [getField] at h
      split at h
      · cases h
        cases hd with
        | mk k' v' => simp; omega
      · have := ih k v h
        simp at this ⊢
        omega

/-- extractRawValue of src/transformers/queryTransformer.ts: unwraps
the predicate wrappers contains and equals (recursing while the inner
value is object-typed), reads startsWith and endsWith verbatim, and
otherwise falls back to the value of the first key, or the value
itself. -/
def extractRawValue : JVal → JVal
  | .str s => .str s
  | .num n => .num n
  | .bool b => .bool b
  | .null => .null
  | .arr xs => .arr xs
  | .date t => .date t
  | .obj fields =>
    match h1 : getField fields "contains" with
    | some c => if isObjectType c then extractRawValue c else c
    | none =>
      match h2 : getField fields "equals" with
      | some c => if isObjectType c then extractRawValue c else c
      | none =>
        match getField fields "startsWith" with
        | some c => c
        | none =>
          match getField fields "endsWith" with
          | some c => c
          | none =>
            match fields with
            | [] => .obj []
            | (_, v) :: _ => v
termination_by v => sizeOf v
decreasing_by
  · have := getField_sizeOf_lt fields "contains" c h1
    simp; omega
  · have := getField_sizeOf_lt fields "equals" c h2
    simp; omega

/-- processFieldValue of src/transformers/queryTransformer.ts; a
JVal.null result is the null sentinel meaning drop this field. -/
def processFieldValue (prims : JsPrims) (value : JVal)
    (typeHandler : Option FieldTypeHandler) : JVal :=
  let rawValue := extractRawValue value
  match typeHandler with
  | none =>
      match rawValue with
      | .str s => .obj [("contains", .str s)]
      | .obj fs => .obj fs
      | .date t => .date t
      | v => .obj [("equals", v)]
  | some th =>
      match th.customHandler with
      | some h => h rawValue
      | none =>
          if th.type = "number" then
            let numValue :=
              match rawValue with
              | .str s => prims.stringToNumber s
              | v => if prims.nonStringIsNaN v then none else some v
            match numValue with
            | none => .null
            | some nv => .obj [(th.searchOperator.getD "equals", nv)]
          else if th.type = "boolean" then
            let boolValue :=
              match rawValue with
              | .str s => s.toLower == "true"
              | v => truthy v
            .obj [("equals", .bool boolValue)]
          else if th.type = "date" then
            let dateValue :=
              match rawValue with
              | .date t => some (JVal.date t)
              | v => (prims.newDate v).map (fun t => JVal.date t)
            match dateValue with
            | none => .null
            | some d => .obj [(th.searchOperator.getD "equals", d)]
          else if th.type = "string" then
            .obj [(th.searchOperator.getD "contains", rawValue)]
          else
            .obj [("equals", rawValue)]

/-- The field list built by transformCondition (the transformed
accumulator object of the source). -/
def transformConditionFields (prims : JsPrims) (config : TransformConfig)
    (condition : JVal) : List (String × JVal) :=
  (jsEntries condition).foldl
    (fun transformed kv =>
      let key := kv.1
      let value := kv.2
      if isNullish value then transformed
      else
        let relationOpt := lookupStr config.fieldMappings key
        let actualField := actualFieldFor config.fieldNameMappings key
        let typeHandler := lookupFTH config.fieldTypeHandlers key
        let relationHandler := lookupRH config.relationHandlers key
        let relTruthy := match relationOpt with
          | some r => r != ""
          | none => false
        if relTruthy then
          let relation := relationOpt.getD ""
          match relationHandler.bind (fun rh => rh.customHandler) with
          | some handler =>
              let result := handler value actualField
              if isNullish result then transformed
              else setProp transformed relation result
          | none =>
              let processedValue := processFieldValue prims value typeHandler
              if isNullish processedValue then transformed
              else
                let cur :=
                  match getField transformed relation with
                  | some v => if truthy v then v else .obj []
                  | none => .obj []
                match cur with
                | .obj fs => setProp transformed relation (.obj (setProp fs actualField processedValue))
                | _ => transformed
        else
          let processedValue := processFieldValue prims value typeHandler
          if isNullish processedValue then transformed
          else if actualField ≠ key then setProp transformed actualField processedValue
          else setProp transformed key processedValue)
    []

/-- The transformCondition closure of transformWhereClause. -/
def transformCondition (prims : JsPrims) (config : TransformConfig) (condition : JVal) : JVal :=
  .obj (transformConditionFields prims config condition)

/-- The filter predicate (condition) => condition &&
Object.keys(condition).length > 0 applied after mapping a sequence. -/
def keepCondition (c : JVal) : Bool :=
  truthy c && !(jsKeys c).isEmpty

/-- The test x && Array.isArray(x) on a property: only an actual array
passes (arrays are always truthy and nothing else is an array). -/
def arrayProp (v : JVal) (k : String) : Option (List JVal) :=
  match getProp v k with
  | some (.arr l) => some l
  | _ => none

/-- The map body applied to each element of a top-level AND sequence:
an element carrying an OR array has each OR member transformed and
empty results filtered out, collapsing to null when none survive; any
other element is transformed directly. -/
def transformAndElement (prims : JsPrims) (config : TransformConfig) (condition : JVal) : JVal :=
  match arrayProp condition "OR" with
  | some orList =>
      let validORConditions :=
        (orList.map (fun orCond => transformCondition prims config orCond)).filter keepCondition
      if validORConditions.length > 0 then .obj [("OR", .arr validORConditions)]
      else .null
  | none => transformCondition prims config condition

/-- transformWhereClause of src/transformers/queryTransformer.ts. -/
def transformWhereClause (prims : JsPrims) (whereConditions : JVal)
    (config : TransformConfig) : JVal :=
  if truthy whereConditions = false then whereConditions
  else
    match arrayProp whereConditions "AND" with
    | some andList =>
        let transformedAND :=
          (andList.map (transformAndElement prims config)).filter keepCondition
        if transformedAND.length > 0 then
          .obj (setProp (jsEntries whereConditions) "AND" (.arr transformedAND))
        else .obj []
    | none =>
        match arrayProp whereConditions "OR" with
        | some orList =>
            let transformedOR :=
              (orList.map (fun c => transformCondition prims config c)).filter keepCondition
            if transformedOR.length > 0 then
              .obj (setProp (jsEntries whereConditions) "OR" (.arr transformedOR))
            else .obj []
        | none => transformCondition prims config whereConditions

/-- transformOrderBy of src/transformers/queryTransformer.ts. -/
def transformOrderBy (orderBy : JVal) (config : TransformConfig) : JVal :=
  if truthy orderBy = false then orderBy
  else if (jsKeys orderBy).isEmpty then orderBy
  else
    let field := ((jsEntries orderBy).head?.map Prod.fst).getD ""
    let direction := ((jsEntries orderBy).head?.map Prod.snd).getD .null
    let relationOpt := lookupStr config.fieldMappings field
    let actualField := actualFieldFor config.fieldNameMappings field
    let relationHandler := lookupRH config.relationHandlers field
    let relTruthy := match relationOpt with
      | some r => r != ""
      | none => false
    if relTruthy then
      let relation := relationOpt.getD ""
      match relationHandler.bind (fun rh => rh.customHandler) with
      | some handler => handler direction actualField
      | none =>
          let nestedField :=
            match relationHandler with
            | some rh =>
                match rh.nestedField with
                | some nf => if nf ≠ "" then nf else actualField
                | none => actualField
            | none => actualField
          .obj [(relation, .obj [(nestedField, direction)])]
    else if actualField ≠ field then .obj [(actualField, direction)]
    else orderBy

/-- BuildQueryResult of src/types. -/
structure BuildQueryResult where
  query : PrismaQueryOptions
  validation : ValidationResult

/-- The BuildQueryFilter facade of src/BuildQueryFilter.ts (its two
configuration fields). -/
structure BuildQueryFilter where
  specification : Option QuerySpecification := none
  transformConfig : Option TransformConfig := none

/-- The shared compile-and-transform part of build and
buildWithoutValidation. -/
def applyTransforms (b : BuildQueryFilter) (prims : JsPrims)
    (query : PrismaQueryOptions) : PrismaQueryOptions :=
  let q1 :=
    match b.transformConfig, query.whereQ with
    | some cfg, some w =>
        if truthy w then { query with whereQ := some (transformWhereClause prims w cfg) }
        else query
    | _, _ => query
  match b.transformConfig, q1.orderBy with
  | some cfg, some ob =>
      if truthy ob then { q1 with orderBy := some (transformOrderBy ob cfg) }
      else q1
  | _, _ => q1

/-- BuildQueryFilter.build. -/
def BuildQueryFilter.build (b : BuildQueryFilter) (prims : JsPrims)
    (filter : FilteringQuery) : BuildQueryResult :=
  let validation := validateQuery filter b.specification
  let query := buildFilterQuery filter
  { query := applyTransforms b prims query, validation := validation }

/-- BuildQueryFilter.buildWithoutValidation. -/
def BuildQueryFilter.buildWithoutValidation (b : BuildQueryFilter) (prims : JsPrims)
    (filter : FilteringQuery) : PrismaQueryOptions :=
  let query := buildFilterQuery filter
  applyTransforms b prims query

/-- BuildQueryFilter.validate. -/
def BuildQueryFilter.validate (b : BuildQueryFilter) (filter : FilteringQuery) :
    ValidationResult :=
  validateQuery filter b.specification

/-- Array.isArray -/
def jsIsArray : JVal → Bool
  | .arr _ => true
  | _ => false

/-- A loop of the form push-unless-skipped is the filter of the skipped
elements followed by the per-element map. -/
theorem foldl_filter_append {α β : Type} (p : α → Bool) (f : α → β) :
    ∀ (l : List α) (acc : List β),
      l.foldl (fun a x => if p x then a else a ++ [f x]) acc
        = acc ++ (l.filter (fun x => !p x)).map f := by
  intro l
  induction l with
  | nil => intro acc; simp
  | cons x xs ih =>
      intro acc
      by_cases h : p x
      · simp [h, ih, List.filter_cons]
      · simp [h, ih, List.filter_cons]

/-- The push-unless-skipped loop over the second component of a pair
accumulator. -/
theorem foldl_pair_snd {α β : Type} (p : α → Bool) (f : α → β) :
    ∀ (l : List α) (a b : List β),
      l.foldl (fun acc x => if p x then acc else (acc.1, acc.2 ++ [f x])) (a, b)
        = (a, b ++ (l.filter (fun x => !p x)).map f) := by
  intro l
  induction l with
  | nil => intro a b; simp
  | cons x xs ih =>
      intro a b
      by_cases h : p x
      · simp [h, ih, List.filter_cons]
      · simp [h, ih, List.filter_cons]

/-- The push-unless-skipped loop over the first component of a pair
accumulator. -/
theorem foldl_pair_fst {α β : Type} (p : α → Bool) (f : α → β) :
    ∀ (l : List α) (a b : List β),
      l.foldl (fun acc x => if p x then acc else (acc.1 ++ [f x], acc.2)) (a, b)
        = (a ++ (l.filter (fun x => !p x)).map f, b) := by
  intro l
  induction l with
  | nil => intro a b; simp
  | cons x xs ih =>
      intro a b
      by_cases h : p x
      · simp [h, ih, List.filter_cons]
      · simp [h, ih, List.filter_cons]

/-- buildWhereQuery is the per-entry condition of every non-null entry,
in insertion order. -/
theorem buildWhereQuery_eq (fs : List (String × JVal)) :
    buildWhereQuery (.obj fs) =
      (fs.filter (fun kv => !isNullish kv.2)).map (fun kv => whereConditionFor kv.1 kv.2) := by
  simpa [buildWhereQuery, jsEntries] using
    foldl_filter_append (fun kv => isNullish kv.2)
      (fun kv : String × JVal => whereConditionFor kv.1 kv.2) fs []

/-- The single equality-style predicate the claims describe for one
array element of a filters value. -/
def singleEqPred (key : String) (val : JVal) : JVal :=
  if hasDot key then .obj [(splitPart key 0, .obj [(splitPart key 1, val)])]
  else .obj [(key, val)]

/-- C1: for a FilterRequest whose filters map is non-empty, compile
appends to where.AND one entry per non-null map entry in insertion
order (followed by whatever the other request parts append), and an
array value yields an OR of exactly one equality-style predicate per
element, in element order. -/
theorem c1_filters_one_entry_per_key (q : FilteringQuery) (fs : List (String × JVal))
    (hq : q.filters = some (.obj fs)) (hne : fs ≠ []) :
    (∃ rest : List JVal,
        (buildFilterQuery q).whereQ =
          some (.obj [("AND", .arr
            ((fs.filter (fun kv => !isNullish kv.2)).map
              (fun kv => whereConditionFor kv.1 kv.2) ++ rest))])) ∧
    ∀ (k : String) (vs : List JVal),
      whereConditionFor k (.arr vs) = .obj [("OR", .arr (vs.map (singleEqPred k)))] := by
  constructor
  · refine ⟨(match q.searchFilters with
      | some f => if truthy f then buildSearchQuery f else []
      | none => []) ++ (match q.rangedFilters with
      | some f => if truthy f then buildRangedFilter (jsElems f) else []
      | none => []), ?_⟩
    obtain ⟨qf, qs, qr, qo, qu, qp, qw⟩ := q
    simp only at hq
    subst hq
    simp only [buildFilterQuery, truthy, buildWhereQuery_eq]
    cases qs <;> cases qr <;> simp <;> split_ifs <;> simp
  · intro k vs
    by_cases h : hasDot k <;> simp [whereConditionFor, singleEqPred, h]

/-- Witness for C1 at a concrete request. -/
theorem c1_filters_one_entry_per_key_witness :
    (∃ rest : List JVal,
        (buildFilterQuery { filters := some (.obj [("status", .str "active")]) }).whereQ =
          some (.obj [("AND", .arr
            (([("status", JVal.str "active")].filter (fun kv => !isNullish kv.2)).map
              (fun kv => whereConditionFor kv.1 kv.2) ++ rest))])) ∧
    ∀ (k : String) (vs : List JVal),
      whereConditionFor k (.arr vs) = .obj [("OR", .arr (vs.map (singleEqPred k)))] :=
  c1_filters_one_entry_per_key _ _ rfl (by simp)

/-- C2: compile appends the search conditions to AND; a searchFilters
map with more than one entry contributes exactly one OR wrapping the
contains-predicates of its non-null entries (nothing when all are
null), while a map with at most one entry contributes its
contains-predicates directly, unwrapped. -/
theorem c2_search_or_wrapping (q : FilteringQuery) (sfs : List (String × JVal))
    (hq : q.searchFilters = some (.obj sfs)) :
    (∃ pre rest : List JVal,
        (buildFilterQuery q).whereQ =
          some (.obj [("AND", .arr (pre ++ buildSearchQuery (.obj sfs) ++ rest))])) ∧
    buildSearchQuery (.obj sfs) =
      (let preds := (sfs.filter (fun kv => !isNullish kv.2)).map
          (fun kv => searchPredFor kv.1 kv.2)
       if sfs.length > 1 then
         (if preds.isEmpty then [] else [.obj [("OR", .arr preds)]])
       else preds) := by
  constructor
  · refine ⟨(match q.filters with
      | some f => if truthy f then buildWhereQuery f else []
      | none => []), (match q.rangedFilters with
      | some f => if truthy f then buildRangedFilter (jsElems f) else []
      | none => []), ?_⟩
    obtain ⟨qf, qs, qr, qo, qu, qp, qw⟩ := q
    simp only at hq
    subst hq
    simp only [buildFilterQuery, truthy]
    cases qf <;> cases qr <;> simp <;> split_ifs <;> simp
  · by_cases hl : sfs.length > 1
    · have hfold := foldl_pair_snd (fun kv => isNullish kv.2)
        (fun kv : String × JVal => searchPredFor kv.1 kv.2) sfs [] []
      simp only [buildSearchQuery, jsEntries, hl] at *
      simp [hfold, hl]
      split_ifs with h1 h2 h3 <;> simp_all
    · have hfold := foldl_pair_fst (fun kv => isNullish kv.2)
        (fun kv : String × JVal => searchPredFor kv.1 kv.2) sfs [] []
      simp only [buildSearchQuery, jsEntries, hl] at *
      simp [hfold, hl]

/-- Witness for C2 at a concrete one-field search request. -/
theorem c2_search_or_wrapping_witness :
    (∃ pre rest : List JVal,
        (buildFilterQuery { searchFilters := some (.obj [("title", .str "x")]) }).whereQ =
          some (.obj [("AND", .arr (pre ++ buildSearchQuery (.obj [("title", .str "x")]) ++ rest))])) ∧
    buildSearchQuery (.obj [("title", .str "x")]) =
      (let preds := ([("title", JVal.str "x")].filter (fun kv => !isNullish kv.2)).map
          (fun kv => searchPredFor kv.1 kv.2)
       if ([("title", JVal.str "x")] : List (String × JVal)).length > 1 then
         (if preds.isEmpty then [] else [.obj [("OR", .arr preds)]])
       else preds) :=
  c2_search_or_wrapping _ _ rfl

/-- C3 counterexample: page set to 0 together with rows set to 5 is a
FilterRequest with page and rows both set, yet compile does not produce
take = rows and skip = (page - 1) * rows; the truthiness test treats
the zero page as unset and falls back to take 10, skip 0. -/
theorem c3_pagination_counterexample :
    buildPagination { page := some (.i 0), rows := some (.i 5) } ≠ ((5 : Int), ((0 : Int) - 1) * 5) ∧
    buildPagination { page := some (.i 0), rows := some (.i 5) } = (10, 0) := by
  constructor
  · intro h
    simp [buildPagination, jsTruthyNum, JsNum.truthy, numVal] at h
  · rfl

/-- C3 amended: the pagination cases hold with set read as set to a
truthy number (nonzero and not NaN): truthy page and truthy rows give
take = rows and skip = (page - 1) * rows; truthy page with rows unset,
zero or NaN gives take = 10 and skip = 10 * (page - 1); page unset,
zero or NaN gives take = 10 and skip = 0 regardless of rows. -/
theorem c3_pagination_amended (q : FilteringQuery) :
    (∀ p r : Int, q.page = some (.i p) → p ≠ 0 → q.rows = some (.i r) → r ≠ 0 →
        buildPagination q = (r, (p - 1) * r)) ∧
    (∀ p : Int, q.page = some (.i p) → p ≠ 0 →
        (q.rows = none ∨ q.rows = some (.i 0) ∨ q.rows = some .nan) →
        buildPagination q = (10, 10 * (p - 1))) ∧
    ((q.page = none ∨ q.page = some (.i 0) ∨ q.page = some .nan) →
        buildPagination q = (10, 0)) := by
  refine ⟨?_, ?_, ?_⟩
  · intro p r hp hp0 hr hr0
    simp [buildPagination, jsTruthyNum, JsNum.truthy, numVal, hp, hr, hp0, hr0]
  · intro p hp hp0 hr
    rcases hr with hr | hr | hr <;>
      simp [buildPagination, jsTruthyNum, JsNum.truthy, numVal, hp, hr, hp0]
  · intro hp
    rcases hp with hp | hp | hp <;>
      simp [buildPagination, jsTruthyNum, JsNum.truthy, numVal, hp]

/-- Witness for C3 amended: page 2 and rows 25 give take 25, skip 25. -/
theorem c3_pagination_amended_witness :
    buildPagination { page := some (.i 2), rows := some (.i 25) } = (25, (2 - 1) * 25) :=
  (c3_pagination_amended _).1 2 25 rfl (by decide) rfl (by decide)

/-- split never returns an empty parts list. -/
theorem splitDot_ne_nil : ∀ l : List Char, splitDot l ≠ [] := by
  intro l
  induction l with
  | nil => simp [splitDot]
  | cons c cs ih =>
      simp only [splitDot]
      split_ifs
      · simp
      · cases h : splitDot cs <;> simp

/-- A dot-free prefix is peeled off as the first part of the split. -/
theorem splitDot_append (t : List Char) :
    ∀ a : List Char, '.' ∉ a → splitDot (a ++ '.' :: t) = a :: splitDot t := by
  intro a
  induction a with
  | nil => intro _; simp [splitDot]
  | cons c cs ih =>
      intro h
      have hc : c ≠ '.' := by
        intro hc; exact h (by simp [hc])
      have hcs : '.' ∉ cs := by
        intro hm; exact h (by simp [hm])
      simp [splitDot, hc, ih hcs]

/-- A dot-free string splits into the single part it is. -/
theorem splitDot_no_dot : ∀ a : List Char, '.' ∉ a → splitDot a = [a] := by
  intro a
  induction a with
  | nil => intro _; rfl
  | cons c cs ih =>
      intro h
      have hc : c ≠ '.' := by
        intro hc; exact h (by simp [hc])
      have hcs : '.' ∉ cs := by
        intro hm; exact h (by simp [hm])
      simp [splitDot, hc, ih hcs]

/-- C5 counterexample: for the key a.b.c the produced nested predicate
uses column b (the second dot-separated segment); the remainder c is
discarded, not folded into the column name as b.c. -/
theorem c5_multidot_counterexample :
    buildWhereQuery (.obj [("a.b.c", .str "v")]) = [.obj [("a", .obj [("b", .str "v")])]] ∧
    buildWhereQuery (.obj [("a.b.c", .str "v")]) ≠ [.obj [("a", .obj [("b.c", .str "v")])]] := by
  refine ⟨rfl, ?_⟩
  intro h
  rw [show buildWhereQuery (.obj [("a.b.c", .str "v")])
      = [.obj [("a", .obj [("b", .str "v")])]] from rfl] at h
  simp at h

/-- C5 amended: a key containing more than one dot is split at every
dot; the relation is the first segment and the column is the second
segment alone, while everything after the second dot is discarded. -/
theorem c5_multidot_amended (a b rest : List Char) (v : JVal)
    (ha : '.' ∉ a) (hb : '.' ∉ b) (hv : jsIsArray v = false) (hn : isNullish v = false) :
    buildWhereQuery (.obj [(String.mk (a ++ '.' :: (b ++ '.' :: rest)), v)]) =
      [.obj [(String.mk a, .obj [(String.mk b, v)])]] := by
  have hparts : splitDot (a ++ '.' :: (b ++ '.' :: rest)) = a :: b :: splitDot rest := by
    rw [splitDot_append _ a ha, splitDot_append _ b hb]
  have hdot : hasDot (String.mk (a ++ '.' :: (b ++ '.' :: rest))) = true := by
    simp [hasDot]
  have h0 : splitPart (String.mk (a ++ '.' :: (b ++ '.' :: rest))) 0 = String.mk a := by
    simp [splitPart, hparts]
  have h1 : splitPart (String.mk (a ++ '.' :: (b ++ '.' :: rest))) 1 = String.mk b := by
    simp [splitPart, hparts]
  simp only [buildWhereQuery, jsEntries, List.foldl, hn, Bool.false_eq_true, if_neg,
    List.nil_append]
  simp only [whereConditionFor, hdot, if_pos, h0, h1]
  cases v <;> simp_all [jsIsArray]

/-- Witness for C5 amended at the key a.b.c. -/
theorem c5_multidot_amended_witness :
    buildWhereQuery (.obj [(String.mk ("a".data ++ '.' :: ("b".data ++ '.' :: "c".data)), .str "v")]) =
      [.obj [(String.mk "a".data, .obj [(String.mk "b".data, .str "v")])]] :=
  c5_multidot_amended "a".data "b".data "c".data (.str "v")
    (by decide) (by decide) rfl rfl

/-- C4 counterexample: with a specification carrying only
forbiddenFields (no allowedFields), a filters entry for the forbidden
field b produces no error at all (and no warning): the forbidden check
is nested inside the allowedFields check, so it never fires without
allowedFields. -/
theorem c4_forbidden_counterexample :
    validateQuery { filters := some (.obj [("b", .num 1)]) }
        (some { forbiddenFields := some ["b"] }) =
      { isValid := true, errors := [], warnings := [] } ∧
    ¬ ((validateQuery { filters := some (.obj [("b", .num 1)]) }
        (some { forbiddenFields := some ["b"] })).errors.length = 1) := by
  constructor
  · rfl
  · intro h
    rw [show validateQuery { filters := some (.obj [("b", .num 1)]) }
        (some { forbiddenFields := some ["b"] })
        = { isValid := true, errors := [], warnings := [] } from rfl] at h
    simp at h

/-- C4 amended: the forbidden-field escalation exists only for filters
paths and only when allowedFields is configured and lacks the path;
search (and likewise range and order) paths produce warnings
regardless of forbiddenFields; forbiddenFields alone, without
allowedFields, produces nothing. -/
theorem c4_allowed_forbidden_amended :
    (∀ (f : String) (v : JVal) (af fb : List String),
        isNullish v = false → hasDot f = false → af.contains f = false →
        validateFilters (.obj [(f, v)])
            { allowedFields := some af, forbiddenFields := some fb } =
          (if fb.contains f then ([fieldForbiddenMsg f], [])
           else ([], [fieldNotAllowedMsg f]))) ∧
    (∀ (f : String) (v : JVal) (fb : List String),
        isNullish v = false → hasDot f = false →
        validateFilters (.obj [(f, v)]) { forbiddenFields := some fb } = ([], [])) ∧
    (∀ (f : String) (v : JVal) (af fb : List String),
        isNullish v = false → hasDot f = false → af.contains f = false →
        validateSearchFilters (.obj [(f, v)])
            { allowedFields := some af, forbiddenFields := some fb } =
          ([], [searchFieldMsg f])) ∧
    (∀ (k : String) (af fb : List String),
        hasDot k = false → af.contains k = false →
        validateRangedFilters [.obj [("key", .str k)]]
            { allowedFields := some af, forbiddenFields := some fb } =
          ([], [rangeFieldMsg k])) ∧
    (∀ (k : String) (af fb : List String),
        hasDot k = false → af.contains k = false →
        validateOrderKey k { allowedFields := some af, forbiddenFields := some fb } =
          ([], [orderFieldMsg k])) ∧
    (validateQuery { filters := some (.obj [("b", .num 1)]) }
        (some { allowedFields := some ["a"], forbiddenFields := some ["b"] }) =
      { isValid := false, errors := [fieldForbiddenMsg "b"], warnings := [] }) ∧
    (validateQuery { filters := some (.obj [("b", .num 1)]) }
        (some { allowedFields := some ["a"] }) =
      { isValid := true, errors := [], warnings := [fieldNotAllowedMsg "b"] }) := by
  refine ⟨?_, ?_, ?_, ?_, ?_, rfl, rfl⟩
  · intro f v af fb hv hf haf
    have haf' : f ∉ af := by simpa using haf
    simp [validateFilters, jsEntries, hv, hf, haf']
  · intro f v fb hv hf
    simp [validateFilters, jsEntries, hv, hf]
  · intro f v af fb hv hf haf
    have haf' : f ∉ af := by simpa using haf
    simp [validateSearchFilters, jsEntries, hv, hf, haf']
  · intro k af fb hk haf
    have haf' : k ∉ af := by simpa using haf
    simp [validateRangedFilters, rangeKey, rangeStart, rangeEnd, getProp, getField,
      isValidDate, hk, haf']
  · intro k af fb hk haf
    have haf' : k ∉ af := by simpa using haf
    simp [validateOrderKey, hk, haf']

/-- Witness for C4 amended: field b with allowedFields a and
forbiddenFields b yields the single forbidden error. -/
theorem c4_allowed_forbidden_amended_witness :
    validateFilters (.obj [("b", .num 1)])
        { allowedFields := some ["a"], forbiddenFields := some ["b"] } =
      (if (["b"] : List String).contains "b" then ([fieldForbiddenMsg "b"], ([] : List String))
       else ([], [fieldNotAllowedMsg "b"])) :=
  c4_allowed_forbidden_amended.1 "b" (.num 1) ["a"] ["b"] rfl rfl (by decide)

/-- The optional date-ordering error a single ranged filter
contributes. -/
def dateOrderErr (r : JVal) : Option String :=
  if (isValidDate (rangeStart r) && isValidDate (rangeEnd r)) &&
      jsDateGt (rangeStart r) (rangeEnd r) then
    some (rangeDateMsg (interpolate (rangeStart r)) (interpolate (rangeEnd r)))
  else none

/-- The loop body of validateRangedFilters under the default
specification: only the date-ordering check can fire. -/
def vrfStep (acc : List String × List String) (range : JVal) : List String × List String :=
  if isValidDate (rangeStart range) && isValidDate (rangeEnd range) then
    if jsDateGt (rangeStart range) (rangeEnd range) then
      (acc.1 ++ [rangeDateMsg (interpolate (rangeStart range)) (interpolate (rangeEnd range))],
        acc.2)
    else acc
  else acc

/-- Under an all-default specification, validateRangedFilters reduces
to the date-ordering loop. -/
theorem validateRangedFilters_default (rs : List JVal) :
    validateRangedFilters rs {} = List.foldl vrfStep ([], []) rs := by
  unfold validateRangedFilters
  apply List.foldl_ext
  intro acc r _
  simp [vrfStep]

/-- The date-ordering loop collects exactly the per-range optional
errors. -/
theorem vrfStep_foldl (rs : List JVal) : ∀ acc : List String × List String,
    List.foldl vrfStep acc rs = (acc.1 ++ rs.filterMap dateOrderErr, acc.2) := by
  induction rs with
  | nil => intro acc; simp
  | cons r rs ih =>
      intro acc
      rw [List.foldl_cons, List.filterMap_cons]
      by_cases hv : (isValidDate (rangeStart r) && isValidDate (rangeEnd r)) = true
      · by_cases hgt : jsDateGt (rangeStart r) (rangeEnd r) = true
        · rw [show vrfStep acc r =
              (acc.1 ++ [rangeDateMsg (interpolate (rangeStart r)) (interpolate (rangeEnd r))],
                acc.2) from by simp [vrfStep, hv, hgt]]
          rw [ih]
          simp [dateOrderErr, hv, hgt]
        · rw [show vrfStep acc r = acc from by simp [vrfStep, hv, hgt]]
          rw [ih]
          simp [dateOrderErr, hv, hgt]
      · rw [show vrfStep acc r = acc from by simp [vrfStep, hv]]
        rw [ih]
        simp [dateOrderErr, hv]

/-- C8: under validation, each ranged filter contributes its
date-ordering error exactly when both bounds are strings matching the
strict ISO pattern and the parsed start timestamp is strictly greater
than the parsed end timestamp; non-string or non-matching bounds never
produce the error. -/
theorem c8_range_date_check :
    (∀ rs : List JVal,
        (validateQuery { rangedFilters := some (.arr rs) } (some {})).errors =
          rs.filterMap dateOrderErr) ∧
    (∀ r : JVal, (dateOrderErr r).isSome = true ↔
        ∃ (s e : String) (a b : Int),
          rangeStart r = .str s ∧ rangeEnd r = .str e ∧
          (parseFieldsISO s.data).isSome = true ∧ (parseFieldsISO e.data).isSome = true ∧
          parseISOTimestamp s = some a ∧ parseISOTimestamp e = some b ∧ a > b) := by
  constructor
  · intro rs
    have hr : validateRangedFilters rs {} = ([] ++ rs.filterMap dateOrderErr, []) :=
      (validateRangedFilters_default rs).trans (vrfStep_foldl rs ([], []))
    simp only [validateQuery, truthy, jsElems]
    simp [hr, validatePagination]
  · intro r
    constructor
    · intro h
      by_cases hc : ((isValidDate (rangeStart r) && isValidDate (rangeEnd r)) &&
          jsDateGt (rangeStart r) (rangeEnd r)) = true
      · obtain ⟨⟨hs, he⟩, hgt⟩ : (isValidDate (rangeStart r) = true ∧
            isValidDate (rangeEnd r) = true) ∧ jsDateGt (rangeStart r) (rangeEnd r) = true := by
          simpa [Bool.and_eq_true] using hc
        rcases hst : rangeStart r with _ | s | n | b | t | xs | fs <;>
          rw [hst] at hs <;> simp [isValidDate] at hs
        rcases het : rangeEnd r with _ | e | n2 | b2 | t2 | xs2 | fs2 <;>
          rw [het] at he <;> simp [isValidDate] at he
        rw [hst, het] at hgt
        simp only [jsDateGt, jsDateValue] at hgt
        rcases hps : parseISOTimestamp s with _ | a <;> rw [hps] at hgt
        · simp at hgt
        · rcases hpe : parseISOTimestamp e with _ | b <;> rw [hpe] at hgt
          · simp at hgt
          · exact ⟨s, e, a, b, rfl, rfl, hs, he, hps, hpe, by simpa using hgt⟩
      · rw [dateOrderErr, if_neg (by simpa using hc)] at h
        simp at h
    · rintro ⟨s, e, a, b, hst, het, hs, he, hpa, hpb, hab⟩
      have hc : ((isValidDate (rangeStart r) && isValidDate (rangeEnd r)) &&
          jsDateGt (rangeStart r) (rangeEnd r)) = true := by
        rw [hst, het]
        simp [isValidDate, jsDateGt, jsDateValue, hs, he, hpa, hpb, hab]
      rw [dateOrderErr, if_pos (by simpa using hc)]
      rfl

/-- Every field of the extracted request except filters. -/
def restExceptFilters (q : FilteringQuery) :=
  (q.searchFilters, q.rangedFilters, q.orderKey, q.orderRule, q.page, q.rows)

/-- Every field of the extracted request except searchFilters. -/
def restExceptSearch (q : FilteringQuery) :=
  (q.filters, q.rangedFilters, q.orderKey, q.orderRule, q.page, q.rows)

/-- Every field of the extracted request except rangedFilters. -/
def restExceptRanged (q : FilteringQuery) :=
  (q.filters, q.searchFilters, q.orderKey, q.orderRule, q.page, q.rows)

/-- C9: extraction is total; when the JSON decode of the filters,
searchFilters or rangedFilters parameter fails, that field is left
unset, and the remaining fields do not depend on that parameter at
all (so they are still extracted). -/
theorem c9_extract_never_fails (decode : String → Option JVal) (p : QueryParams) :
    (∀ (pv : ParamVal) (s : String), p.filters = some pv → firstString pv = some s →
        decode s = none → (extractQueryFromParams decode p).filters = none) ∧
    (∀ (pv : ParamVal) (s : String), p.searchFilters = some pv → firstString pv = some s →
        decode s = none → (extractQueryFromParams decode p).searchFilters = none) ∧
    (∀ (pv : ParamVal) (s : String), p.rangedFilters = some pv → firstString pv = some s →
        decode s = none → (extractQueryFromParams decode p).rangedFilters = none) ∧
    (∀ pv : Option ParamVal,
        restExceptFilters (extractQueryFromParams decode { p with filters := pv }) =
          restExceptFilters (extractQueryFromParams decode p)) ∧
    (∀ pv : Option ParamVal,
        restExceptSearch (extractQueryFromParams decode { p with searchFilters := pv }) =
          restExceptSearch (extractQueryFromParams decode p)) ∧
    (∀ pv : Option ParamVal,
        restExceptRanged (extractQueryFromParams decode { p with rangedFilters := pv }) =
          restExceptRanged (extractQueryFromParams decode p)) := by
  refine ⟨?_, ?_, ?_, fun _ => rfl, fun _ => rfl, fun _ => rfl⟩ <;>
    · intro pv s hp hf hd
      simp only [extractQueryFromParams, decodeParam, hp]
      split_ifs <;> simp [hf, hd]

/-- A decode that always fails, standing in for JSON.parse on
malformed input. -/
def failingDecode : String → Option JVal := fun _ => none

/-- A sample raw parameter mapping carrying malformed filters and a
page number. -/
def sampleParams : QueryParams :=
  { filters := some (.s "not json"), page := some (.s "2") }

/-- Witness for C9: with failing JSON decode on the filters parameter,
the filters field is omitted while the page parameter is untouched. -/
theorem c9_extract_never_fails_witness :
    (extractQueryFromParams failingDecode sampleParams).filters = none :=
  (c9_extract_never_fails failingDecode sampleParams).1 (.s "not json") "not json" rfl rfl rfl

/-- C10: for every facade configuration and request, the query part of
build equals buildWithoutValidation: validation never alters the
produced query options. -/
theorem c10_build_query_eq_buildWithoutValidation (b : BuildQueryFilter) (prims : JsPrims)
    (filter : FilteringQuery) :
    (b.build prims filter).query = b.buildWithoutValidation prims filter := rfl

/-- A freshly assigned property reads back. -/
theorem getField_setProp (k : String) (v : JVal) :
    ∀ fs : List (String × JVal), getField (setProp fs k v) k = some v := by
  intro fs
  induction fs with
  | nil => simp [setProp, getField]
  | cons hd tl ih =>
      obtain ⟨k', v'⟩ := hd
      by_cases h : k' = k <;> simp [setProp, getField, h, ih]

/-- A model of the numeric and date builtins in which every coercion
fails; the claims that use it never reach those coercions. -/
def primsNone : JsPrims :=
  { stringToNumber := fun _ => none, nonStringIsNaN := fun _ => false,
    newDate := fun _ => none }

/-- The transform configuration with empty field mappings, name
mappings and handler maps. -/
def emptyTransformConfig : TransformConfig := { fieldMappings := [] }

/-- C7: on a ConditionTree (a tree with a top-level AND sequence) and
any TransformConfig, every AND element whose transformation is empty is
discarded (the surviving AND sequence is exactly the filtered map, and
every survivor is a truthy value with at least one key); an element
carrying an OR sequence keeps exactly its non-empty transformed
members or collapses to null when none survive; and when the whole AND
sequence empties, the result is the empty object. -/
theorem c7_empty_elements_discarded (prims : JsPrims) (cfg : TransformConfig)
    (fs : List (String × JVal)) (l : List JVal)
    (h : getField fs "AND" = some (.arr l)) :
    (((l.map (transformAndElement prims cfg)).filter keepCondition = []) →
        transformWhereClause prims (.obj fs) cfg = .obj []) ∧
    (∀ ts : List JVal,
        getProp (transformWhereClause prims (.obj fs) cfg) "AND" = some (.arr ts) →
        ts = (l.map (transformAndElement prims cfg)).filter keepCondition ∧
        ∀ c ∈ ts, truthy c = true ∧ (jsKeys c).isEmpty = false) ∧
    (∀ el ∈ l, ∀ m : List JVal, arrayProp el "OR" = some m →
        (transformAndElement prims cfg el = .null ∧
          (m.map (fun c => transformCondition prims cfg c)).filter keepCondition = []) ∨
        (∃ ms : List JVal, transformAndElement prims cfg el = .obj [("OR", .arr ms)] ∧
          ms ≠ [] ∧ ms = (m.map (fun c => transformCondition prims cfg c)).filter keepCondition ∧
          ∀ d ∈ ms, keepCondition d = true)) := by
  have harr : arrayProp (.obj fs) "AND" = some l := by
    simp [arrayProp, getProp, h]
  have htw : transformWhereClause prims (.obj fs) cfg =
      (if ((l.map (transformAndElement prims cfg)).filter keepCondition).length > 0 then
        JVal.obj (setProp fs "AND"
          (.arr ((l.map (transformAndElement prims cfg)).filter keepCondition)))
      else .obj []) := by
    simp [transformWhereClause, truthy, harr, jsEntries]
  refine ⟨?_, ?_, ?_⟩
  · intro hempty
    rw [htw, hempty]
    simp
  · intro ts hts
    by_cases hempty : ((l.map (transformAndElement prims cfg)).filter keepCondition) = []
    · rw [htw, hempty] at hts
      simp [getProp, getField] at hts
    · have hlen : ((l.map (transformAndElement prims cfg)).filter keepCondition).length > 0 := by
        cases hk : (l.map (transformAndElement prims cfg)).filter keepCondition with
        | nil => exact absurd hk hempty
        | cons a b => simp [hk]
      rw [htw, if_pos hlen] at hts
      simp only [getProp, getField_setProp] at hts
      have harr2 : JVal.arr ((l.map (transformAndElement prims cfg)).filter keepCondition)
          = JVal.arr ts := by injection hts
      have hts' : ts = (l.map (transformAndElement prims cfg)).filter keepCondition := by
        have := harr2
        injection this with h3
        exact h3.symm
      refine ⟨hts', ?_⟩
      intro c hc
      rw [hts'] at hc
      have := List.of_mem_filter hc
      simpa [keepCondition, Bool.and_eq_true] using this
  · intro el _ m hm
    simp only [transformAndElement, hm]
    by_cases hlen : ((m.map (fun c => transformCondition prims cfg c)).filter keepCondition).length > 0
    · right
      refine ⟨_, by rw [if_pos hlen], ?_, rfl, ?_⟩
      · intro hnil
        rw [hnil] at hlen
        simp at hlen
      · intro d hd
        exact List.of_mem_filter hd
    · left
      refine ⟨by rw [if_neg hlen], ?_⟩
      cases hk : (m.map (fun c => transformCondition prims cfg c)).filter keepCondition with
      | nil => rfl
      | cons a b =>
          rw [hk] at hlen
          simp at hlen

/-- Witness for C7: an AND whose only element holds a single null
field transforms to an empty object, so the whole where collapses to
the empty object. -/
theorem c7_empty_elements_discarded_witness :
    transformWhereClause primsNone (.obj [("AND", .arr [.obj [("a", .null)]])])
        emptyTransformConfig = .obj [] :=
  (c7_empty_elements_discarded primsNone emptyTransformConfig
    [("AND", .arr [.obj [("a", .null)]])] [.obj [("a", .null)]] rfl).1 rfl

/-- A scalar-style leaf value of a compiler condition: a string,
number or boolean filter value, or a contains wrapper around a
string (as search conditions carry). -/
inductive LeafVal : JVal → Prop where
  | str (s : String) : LeafVal (.str s)
  | num (n : Int) : LeafVal (.num n)
  | bool (b : Bool) : LeafVal (.bool b)
  | containsStr (s : String) : LeafVal (.obj [("contains", .str s)])

/-- A leaf condition object: nonempty, leaf values only, distinct
keys. -/
inductive LeafObj : JVal → Prop where
  | mk (fs : List (String × JVal)) (hne : fs ≠ [])
      (hvals : ∀ kv ∈ fs, LeafVal kv.2)
      (hkeys : (fs.map Prod.fst).Nodup) : LeafObj (.obj fs)

/-- An element of the top-level AND sequence: either an OR of leaf
objects or a leaf object. -/
inductive AndElem : JVal → Prop where
  | orNode (l : List JVal) (hne : l ≠ []) (h : ∀ x ∈ l, LeafObj x) :
      AndElem (.obj [("OR", .arr l)])
  | leaf (v : JVal) (h : LeafObj v) : AndElem v

/-- A compiler-style condition tree with scalar leaves only. -/
inductive SimpleTree : JVal → Prop where
  | mk (l : List JVal) (hne : l ≠ []) (h : ∀ x ∈ l, AndElem x) :
      SimpleTree (.obj [("AND", .arr l)])

/-- The normalization of one leaf value that the specification
describes: a string becomes its contains wrapper, an existing wrapper
object is unchanged, any other scalar becomes an equals wrapper. -/
def normLeafVal : JVal → JVal
  | .str s => .obj [("contains", .str s)]
  | .obj fs => .obj fs
  | v => .obj [("equals", v)]

/-- Pointwise normalization of a leaf condition object. -/
def normLeafObj (v : JVal) : JVal :=
  .obj ((jsEntries v).map (fun kv => (kv.1, normLeafVal kv.2)))

/-- Normalization of one AND element (through an OR node when
present). -/
def normAndElem (v : JVal) : JVal :=
  match arrayProp v "OR" with
  | some l => .obj [("OR", .arr (l.map normLeafObj))]
  | none => normLeafObj v

/-- The structurally equal tree with normalized leaves that the
specification describes. -/
def normalizeLeaves (t : JVal) : JVal :=
  match arrayProp t "AND" with
  | some l => .obj [("AND", .arr (l.map normAndElem))]
  | none => t

/-- A property that reads back was stored. -/
theorem getField_mem : ∀ (fs : List (String × JVal)) (k : String) (v : JVal),
    getField fs k = some v → (k, v) ∈ fs := by
  intro fs
  induction fs with
  | nil => intro k v h; simp [getField] at h
  | cons hd tl ih =>
      intro k v h
      obtain ⟨k', v'⟩ := hd
      by_cases hk : k' = k
      · subst hk
        simp [getField] at h
        simp [h]
      · simp [getField, hk] at h
        exact List.mem_cons_of_mem _ (ih k v h)

/-- Assigning a fresh key appends it. -/
theorem setProp_append (k : String) (v : JVal) :
    ∀ fs : List (String × JVal), k ∉ fs.map Prod.fst → setProp fs k v = fs ++ [(k, v)] := by
  intro fs
  induction fs with
  | nil => intro _; rfl
  | cons hd tl ih =>
      intro h
      obtain ⟨k', v'⟩ := hd
      simp only [List.map_cons, List.mem_cons] at h
      push_neg at h
      obtain ⟨hk, htl⟩ := h
      simp only [setProp]
      rw [if_neg (fun he => hk he.symm), ih htl]
      simp

/-- Default processing of a leaf value is its normalization. -/
theorem pfv_leafVal (prims : JsPrims) (v : JVal) (h : LeafVal v) :
    processFieldValue prims v none = normLeafVal v := by
  cases h <;>
    simp [processFieldValue, extractRawValue, getField, isObjectType, normLeafVal]

/-- A normalized leaf value is a wrapper object, never null. -/
theorem normLeafVal_not_nullish (v : JVal) (h : LeafVal v) :
    isNullish (normLeafVal v) = false := by
  cases h <;> simp [normLeafVal, isNullish]

/-- A leaf value is never null. -/
theorem leafVal_not_nullish (v : JVal) (h : LeafVal v) : isNullish v = false := by
  cases h <;> simp [isNullish]

/-- The transformCondition loop body under the empty configuration. -/
def tcfEmptyStep (prims : JsPrims) (transformed : List (String × JVal))
    (kv : String × JVal) : List (String × JVal) :=
  if isNullish kv.2 then transformed
  else
    let processedValue := processFieldValue prims kv.2 none
    if isNullish processedValue then transformed
    else setProp transformed kv.1 processedValue

/-- Under the empty configuration the generic loop body reduces to the
simple step. -/
theorem tcf_empty_eq_step (prims : JsPrims) (fs : List (String × JVal)) :
    transformConditionFields prims emptyTransformConfig (.obj fs) =
      List.foldl (tcfEmptyStep prims) [] fs := by
  unfold transformConditionFields
  simp only [jsEntries]
  apply List.foldl_ext
  intro acc kv _
  simp [tcfEmptyStep, emptyTransformConfig, lookupStr, actualFieldFor, lookupFTH, lookupRH]

/-- The empty-configuration loop maps each fresh-keyed leaf entry to
its normalized value, in order. -/
theorem tcfEmptyStep_foldl (prims : JsPrims) :
    ∀ (fs acc : List (String × JVal)),
      (∀ kv ∈ fs, LeafVal kv.2) → (fs.map Prod.fst).Nodup →
      (∀ kv ∈ fs, kv.1 ∉ acc.map Prod.fst) →
      List.foldl (tcfEmptyStep prims) acc fs
        = acc ++ fs.map (fun kv => (kv.1, normLeafVal kv.2)) := by
  intro fs
  induction fs with
  | nil => intro acc _ _ _; simp
  | cons kv rest ih =>
      intro acc hvals hnodup hfresh
      rw [List.foldl_cons]
      have hl : LeafVal kv.2 := hvals kv (by simp)
      have hstep : tcfEmptyStep prims acc kv = acc ++ [(kv.1, normLeafVal kv.2)] := by
        simp [tcfEmptyStep, leafVal_not_nullish _ hl, pfv_leafVal prims _ hl,
          normLeafVal_not_nullish _ hl, setProp_append _ _ acc (hfresh kv (by simp))]
      rw [hstep]
      rw [ih (acc ++ [(kv.1, normLeafVal kv.2)]) (fun x hx => hvals x (by simp [hx]))
        (by simpa using hnodup.of_cons) ?_]
      · simp
      · intro x hx
        simp only [List.map_append, List.mem_append]
        push_neg
        constructor
        · exact hfresh x (by simp [hx])
        · simp only [List.map_cons, List.nodup_cons] at hnodup
          intro hmem
          simp at hmem
          exact hnodup.1 (List.mem_map.mpr ⟨x, hx, hmem⟩)

/-- Transforming a leaf condition under the empty configuration is its
pointwise normalization. -/
theorem tc_leafObj (prims : JsPrims) (v : JVal) (h : LeafObj v) :
    transformCondition prims emptyTransformConfig v = normLeafObj v := by
  cases h with
  | mk fs hne hvals hkeys =>
      simp only [transformCondition, normLeafObj, jsEntries]
      rw [tcf_empty_eq_step, tcfEmptyStep_foldl prims fs [] hvals hkeys (by simp)]
      simp

/-- A normalized leaf condition survives the emptiness filter. -/
theorem keep_normLeafObj (v : JVal) (h : LeafObj v) :
    keepCondition (normLeafObj v) = true := by
  cases h with
  | mk fs hne hvals hkeys =>
      simp [normLeafObj, keepCondition, truthy, jsKeys, jsEntries, hne]

/-- A leaf condition carries no OR array. -/
theorem arrayProp_leafObj_OR (v : JVal) (h : LeafObj v) : arrayProp v "OR" = none := by
  cases h with
  | mk fs hne hvals hkeys =>
      simp only [arrayProp, getProp]
      cases hf : getField fs "OR" with
      | none => rfl
      | some x =>
          have hx : LeafVal x := hvals ("OR", x) (getField_mem fs "OR" x hf)
          cases hx <;> rfl

/-- Transforming one AND element under the empty configuration is its
normalization, and the result survives the emptiness filter. -/
theorem tae_andElem (prims : JsPrims) (x : JVal) (h : AndElem x) :
    transformAndElement prims emptyTransformConfig x = normAndElem x ∧
    keepCondition (normAndElem x) = true := by
  cases h with
  | orNode l hne hall =>
      have harr : arrayProp (.obj [("OR", .arr l)]) "OR" = some l := rfl
      have hmapfilter :
          (l.map (fun orCond => transformCondition prims emptyTransformConfig orCond)).filter
              keepCondition = l.map normLeafObj := by
        rw [List.map_congr_left (fun x hx => tc_leafObj prims x (hall x hx))]
        apply List.filter_eq_self.mpr
        intro a ha
        obtain ⟨y, hy, rfl⟩ := List.mem_map.mp ha
        exact keep_normLeafObj y (hall y hy)
      constructor
      · simp only [transformAndElement, normAndElem, harr, hmapfilter]
        rw [if_pos]
        cases l with
        | nil => exact absurd rfl hne
        | cons a b => simp
      · simp [normAndElem, harr, keepCondition, truthy, jsKeys, jsEntries]
  | leaf w hv =>
      have harr := arrayProp_leafObj_OR x hv
      constructor
      · simp only [transformAndElement, normAndElem, harr]
        exact tc_leafObj prims x hv
      · simp only [normAndElem, harr]
        exact keep_normLeafObj x hv

/-- C6 counterexample: the compiler-produced tree for a ranged filter
has no scalar leaf value (its price leaf carries the object with gte
and lte bounds), so the claimed normalization would leave it
structurally equal; the empty-configuration transform instead
collapses the bounds object to an equals predicate on the first bound,
losing the lte bound entirely. -/
theorem c6_normalization_counterexample :
    (buildFilterQuery { rangedFilters := some (.arr
        [.obj [("key", .str "price"), ("start", .num 10), ("end", .num 100)]]) }).whereQ =
      some (.obj [("AND", .arr [.obj [("price", .obj [("gte", .num 10), ("lte", .num 100)])]])]) ∧
    transformWhereClause primsNone
        (.obj [("AND", .arr [.obj [("price", .obj [("gte", .num 10), ("lte", .num 100)])]])])
        emptyTransformConfig =
      .obj [("AND", .arr [.obj [("price", .obj [("equals", .num 10)])]])] ∧
    JVal.obj [("AND", .arr [.obj [("price", .obj [("equals", .num 10)])]])] ≠
      .obj [("AND", .arr [.obj [("price", .obj [("gte", .num 10), ("lte", .num 100)])]])] := by
  refine ⟨rfl, ?_, by simp⟩
  simp [transformWhereClause, transformAndElement, transformCondition, transformConditionFields,
    processFieldValue, extractRawValue, jsEntries, getField, getProp, setProp, arrayProp,
    keepCondition, truthy, isNullish, jsKeys, lookupStr, lookupFTH, lookupRH, actualFieldFor,
    isObjectType, emptyTransformConfig, primsNone]

/-- C6 amended: restricted to compiler-style trees whose leaves are
bare-field scalar predicates (strings, numbers, booleans, or contains
wrappers of strings, with distinct keys and nonempty AND and OR
sequences), the empty-configuration transform is exactly the
structural leaf normalization the specification describes, and it is
not a strict identity. -/
theorem c6_empty_config_normalizes (prims : JsPrims) :
    (∀ t : JVal, SimpleTree t →
        transformWhereClause prims t emptyTransformConfig = normalizeLeaves t) ∧
    (transformWhereClause prims (.obj [("AND", .arr [.obj [("status", .str "active")]])])
        emptyTransformConfig ≠
      .obj [("AND", .arr [.obj [("status", .str "active")]])]) := by
  have hmain : ∀ t : JVal, SimpleTree t →
      transformWhereClause prims t emptyTransformConfig = normalizeLeaves t := by
    intro t h
    cases h with
    | mk l hne hall =>
        have harr : arrayProp (.obj [("AND", .arr l)]) "AND" = some l := rfl
        have hmapfilter :
            (l.map (transformAndElement prims emptyTransformConfig)).filter keepCondition
              = l.map normAndElem := by
          rw [List.map_congr_left (fun y hy => (tae_andElem prims y (hall y hy)).1)]
          apply List.filter_eq_self.mpr
          intro a ha
          obtain ⟨y, hy, rfl⟩ := List.mem_map.mp ha
          exact (tae_andElem prims y (hall y hy)).2
        have hlen : ((l.map (transformAndElement prims emptyTransformConfig)).filter
            keepCondition).length > 0 := by
          rw [hmapfilter]
          cases l with
          | nil => exact absurd rfl hne
          | cons a b => simp
        simp only [transformWhereClause, harr, hmapfilter]
        rw [if_neg (by simp [truthy]), if_pos (hmapfilter ▸ hlen)]
        simp [normalizeLeaves, harr, jsEntries, setProp]
  refine ⟨hmain, ?_⟩
  have hst : SimpleTree (.obj [("AND", .arr [.obj [("status", .str "active")]])]) := by
    refine SimpleTree.mk _ (by simp) ?_
    intro y hy
    simp at hy
    rw [hy]
    refine AndElem.leaf _ (LeafObj.mk _ (by simp) ?_ (by simp))
    intro kv hkv
    simp at hkv
    rw [hkv]
    exact LeafVal.str "active"
  rw [hmain _ hst]
  simp [normalizeLeaves, normAndElem, normLeafObj, normLeafVal, arrayProp, getProp, getField,
    jsEntries]

/-- Witness for C6 amended at the one-leaf status tree. -/
theorem c6_empty_config_normalizes_witness :
    transformWhereClause primsNone (.obj [("AND", .arr [.obj [("status", .str "active")]])])
        emptyTransformConfig =
      normalizeLeaves (.obj [("AND", .arr [.obj [("status", .str "active")]])]) :=
  (c6_empty_config_normalizes primsNone).1 _
    (SimpleTree.mk _ (by simp) (by
      intro y hy
      simp at hy
      rw [hy]
      exact AndElem.leaf _ (LeafObj.mk _ (by simp)
        (by
          intro kv hkv
          simp at hkv
          rw [hkv]
          exact LeafVal.str "active")
        (by simp))))
